import Mathlib

/-!
# Verification of the `optinet` pipe-network optimizer

Shallow embedding, in Lean 4, of the parts of the repository that the
specification's claims are about:

* `src/objfun.py` — the diameter catalog (`index2diam`) and the penalized
  objective function (`network_cost`);
* `src/hydraulic.py` — the `Network` session wrapper (`open_network`,
  `change_diameters`, `simulate`);
* `src/optinetd_deap.py` — the multi-run GA driver
  (`optimize_diameters_execs`) and the selection operator it registers.

Python floats are modelled as rationals (`ℚ`), Python ints as `ℤ`/`ℕ`,
Python dicts as association lists with distinct keys, fallible code as
`Option`/`Except`.  Stateful methods of the `Network` object are embedded
as explicit state-passing functions over a `NetState` record; the external
EPANET engine is an opaque oracle (`Engine`) supplying per-period,
per-entity values, exactly as the code treats it.
-/

namespace Optinet

/-- The error taxonomy of the spec, as raised by the embedded code:
`assertionError` is the `DimensionMismatch` assert of `change_diameters`,
`keyError`/`indexError` are Python lookup failures, and the
per-execution GA failures of the multi-run driver are abstracted as
`solverError`. -/
inductive PyErr where
  | assertionError
  | keyError
  | indexError
  | solverError
  deriving DecidableEq, Repr

/-! ## Python primitives used by the source -/

/-- Lookup in a Python dict modelled as an association list with distinct
keys: `d[k]` returns the value of the (unique) entry with key `k`, and
raises `KeyError` (here `none`) when no entry has that key. -/
def lookupD (ps : List (ℚ × ℚ)) (d : ℚ) : Option ℚ :=
  match ps with
  | [] => none
  | (k, v) :: rest => if d = k then some v else lookupD rest d

/-- Python list subscription `l[i]` with an `int` index: a negative index
counts from the end (`l[i]` is `l[len(l)+i]`), and an index outside
`[-len(l), len(l))` raises `IndexError` (here `none`). -/
def pyGet (l : List ℚ) (i : ℤ) : Option ℚ :=
  let j : ℤ := if i < 0 then i + l.length else i
  if 0 ≤ j then l.get? j.toNat else none

/-! ## `objfun.index2diam` (src/objfun.py lines 47–60)

`keys = sorted(pipe_price.keys()); d = [keys[x] for x in diam_indexes]`.
The keys of a Python dict are distinct, so `sorted` returns the unique
ascending enumeration of the key set; we embed it with insertion sort. -/

/-- The ascending-sorted key list of the price table
(`sorted(pipe_price.keys())`). -/
def sortedKeys (pipe_price : List (ℚ × ℚ)) : List ℚ :=
  List.insertionSort (· ≤ ·) (pipe_price.map Prod.fst)

/-- A Python list comprehension `[f(x) for x in xs]` over a fallible
`f`: evaluates left to right and propagates the first exception. -/
def comprehend (f : ℤ → Option ℚ) : List ℤ → Option (List ℚ)
  | [] => some []
  | x :: xs =>
    match f x with
    | none => none
    | some y => (comprehend f xs).map (fun ys => y :: ys)

/-- `index2diam(diam_indexes, pipe_price)`: resolve each index against the
sorted key list by Python list subscription; the comprehension propagates
the first `IndexError` (`none`). -/
def index2diam (diam_indexes : List ℤ) (pipe_price : List (ℚ × ℚ)) :
    Option (List ℚ) :=
  comprehend (pyGet (sortedKeys pipe_price)) diam_indexes

/-! ## The `Network` object (src/hydraulic.py)

The object's mutable attributes become a record; each method becomes a
function from the record (plus its arguments) to a new record.  The EPANET
engine behind `em.*` is opaque to the repository, which only reads counts
and per-entity values from it; it is embedded as a value oracle. -/

/-- The state of a `Network` instance: the counts obtained by
`initialize`, the snapshot lists filled by `simulate`, and the per-link
diameter registers of the underlying solver session
(written by `em.ENsetlinkvalue(i+1, em.EN_DIAMETER, ·)`). -/
structure NetState where
  nodes : ℕ
  links : ℕ
  nodeids : List ℕ
  sources : List ℤ
  pressure : List ℚ
  velocity : List ℚ
  lengths : List ℚ
  diameters : List ℚ
  flowrate : List ℚ
  solverDiam : List ℚ
  deriving DecidableEq, Repr

/-- The opaque EPANET engine as seen through `em.ENrunH` / `em.ENnextH` /
the `ENget*` accessors: it yields `periods` hydraulic periods (the
do-while loop body runs once per period, at least once), and per-period,
per-ordinal attribute values. -/
structure Engine where
  periods : ℕ
  nodeId : ℕ → ℕ
  nodeType : ℕ → ℤ
  nodePressure : ℕ → ℕ → ℚ
  linkVelocity : ℕ → ℕ → ℚ
  linkLength : ℕ → ℕ → ℚ
  linkDiameter : ℕ → ℕ → ℚ
  linkFlow : ℕ → ℕ → ℚ

/-- CPython's `is` on two separately computed machine integers at runtime:
ints in the interned cache `[-5, 256]` are unique objects, so identity
coincides with equality there; equal values outside the cache live in
distinct objects, so `is` is `False` even when `==` would be `True`.
This models `len(diameters) is self.links` in `change_diameters`, where
both operands are freshly produced runtime ints. -/
def intIs (a b : ℤ) : Bool :=
  decide (a = b) && decide (-5 ≤ a) && decide (a ≤ 256)

/-- `Network.change_diameters(diameters)` (src/hydraulic.py lines 86–99):
`assert len(diameters) is self.links`, then one
`ENsetlinkvalue(i+1, EN_DIAMETER, diameters[i])` per link.  A failed
assert raises before any write reaches the solver. -/
def change_diameters (diameters : List ℚ) (net : NetState) :
    Except PyErr NetState :=
  if intIs diameters.length net.links then
    Except.ok { net with
      solverDiam := (List.range net.links).map (fun i => diameters.getD i 0) }
  else
    Except.error PyErr.assertionError

/-- One period of the collection loop in `Network.simulate`: the node loop
appends to `nodeids`, `pressure`, `sources`; the link loop appends to
`velocity`, `lengths`, `diameters`, `flowrate`. -/
def collectPeriod (e : Engine) (t : ℕ) (st : NetState) : NetState :=
  { st with
    nodeids := st.nodeids ++ (List.range st.nodes).map e.nodeId
    pressure := st.pressure ++ (List.range st.nodes).map (e.nodePressure t)
    sources := st.sources ++ (List.range st.nodes).map e.nodeType
    velocity := st.velocity ++ (List.range st.links).map (e.linkVelocity t)
    lengths := st.lengths ++ (List.range st.links).map (e.linkLength t)
    diameters := st.diameters ++ (List.range st.links).map (e.linkDiameter t)
    flowrate := st.flowrate ++ (List.range st.links).map (e.linkFlow t) }

/-- `Network.simulate()` (src/hydraulic.py lines 101–244): after
`ENinitH(EN_NOSAVE)` the method reassigns `pressure`, `velocity`,
`lengths`, `diameters` and `sources` to fresh empty lists — but not
`nodeids` and not `flowrate` — then runs the collection loop once per
hydraulic period. -/
def simulate (net : NetState) (e : Engine) : NetState :=
  let base := { net with
    pressure := ([] : List ℚ)
    velocity := ([] : List ℚ)
    lengths := ([] : List ℚ)
    diameters := ([] : List ℚ)
    sources := ([] : List ℤ) }
  (List.range e.periods).foldl (fun st t => collectPeriod e t st) base

/-- Result of `Network.open_network()` (src/hydraulic.py lines 54–68):
whether `ENopen`/`ENopenH` were called, whether any exception escaped the
method, and the value it returned.  When `check_file()` is false the
method only prints `File: ... does not exist` and still reaches
`return True`. -/
structure OpenResult where
  solverOpened : Bool
  raised : Bool
  ret : Bool
  deriving DecidableEq, Repr

/-- `Network.open_network()` as a function of whether the topology input
file exists (`os.path.isfile(self.path + self.inputfile)`). -/
def open_network (fileExists : Bool) : OpenResult :=
  if fileExists then
    { solverOpened := true, raised := false, ret := true }
  else
    { solverOpened := false, raised := false, ret := true }

/-! ## `objfun.network_cost` (src/objfun.py lines 105–146)

The Python function first mutates the network (`change_diameters`,
`simulate`) and then computes penalties and cost from the snapshot lists.
We embed the post-simulation computation (lines 116–146) over the
explicit `NetState`; the two mutating calls are the functions above. -/

/-- The keyword options of `network_cost` with their defaults:
`hmin=30.0, hmax=100.0, vmin=0.25, vmax=2.50, penalty_step=1`. -/
structure Options where
  hmin : ℚ
  hmax : ℚ
  vmin : ℚ
  vmax : ℚ
  penalty_step : ℚ
  deriving DecidableEq, Repr

/-- The default option values of `network_cost`. -/
def defaultOpts : Options := ⟨30, 100, 1/4, 5/2, 1⟩

/-- The pressure-penalty loop `for i in range(network.nodes)`: reads
`network.sources[i]` always and `network.pressure[i]` only for consumer
nodes (`sources[i] == 0`); adds `penalty_step` per violated node.  Returns
the accumulated penalty (the loop's `pH` minus its initial `1`); an
out-of-range read (`IndexError`) is `none`. -/
def penH (n : ℕ) (sources : List ℤ) (pressure : List ℚ) (o : Options) :
    Option ℚ :=
  match n, sources with
  | 0, _ => some 0
  | _ + 1, [] => none
  | n + 1, s :: ss =>
    if s = 0 then
      match pressure.head? with
      | none => none
      | some p =>
        (penH n ss pressure.tail o).map
          (fun acc => if p < o.hmin ∨ o.hmax < p then acc + o.penalty_step else acc)
    else
      penH n ss pressure.tail o

/-- The velocity-penalty loop `for i in range(network.links)`: reads
`network.velocity[i]`; adds `penalty_step` per violated pipe.  Returns the
accumulated penalty (the loop's `pV` minus its initial `1`). -/
def penV (n : ℕ) (velocity : List ℚ) (o : Options) : Option ℚ :=
  match n, velocity with
  | 0, _ => some 0
  | _ + 1, [] => none
  | n + 1, v :: vs =>
    (penV n vs o).map
      (fun acc => if v < o.vmin ∨ o.vmax < v then acc + o.penalty_step else acc)

/-- The cost loop `for i in range(len(diameters))`:
`cost += unit_prices[diameters[i]] * network.lengths[i] * pV * pH`.
A missing price (`KeyError`) or a short `lengths` list (`IndexError`)
is `none`. -/
def costSum (diameters lengths : List ℚ) (unit_prices : List (ℚ × ℚ))
    (pV pH : ℚ) : Option ℚ :=
  match diameters with
  | [] => some 0
  | d :: ds =>
    match lookupD unit_prices d, lengths.head? with
    | some up, some l =>
      (costSum ds lengths.tail unit_prices pV pH).map
        (fun rest => up * l * pV * pH + rest)
    | _, _ => none

/-- `network_cost(diameters, network, unit_prices, **kwargs)` after the
simulation: the pressure-penalty loop, then the velocity-penalty loop,
then the cost loop, over the snapshot lists of `net`. -/
def network_cost (diameters : List ℚ) (net : NetState)
    (unit_prices : List (ℚ × ℚ)) (o : Options) : Option ℚ :=
  match penH net.nodes net.sources net.pressure o with
  | none => none
  | some h =>
    match penV net.links net.velocity o with
    | none => none
    | some v =>
      costSum diameters net.lengths unit_prices (1 + v) (1 + h)

/-! ## Specification-side formulations (from the spec's words)

These restate the spec's description of the same quantities, to be
compared with the source embedding above. -/

/-- A (node type, pressure) pair violates the pressure constraint when
the node is a consumer node (type code `0`) and its pressure lies
strictly outside `[hmin, hmax]`. -/
def pViol (o : Options) (sp : ℤ × ℚ) : Bool :=
  decide (sp.1 = 0) && (decide (sp.2 < o.hmin) || decide (o.hmax < sp.2))

/-- A pipe velocity violates the velocity constraint when it lies
strictly outside `[vmin, vmax]`. -/
def vViol (o : Options) (v : ℚ) : Bool :=
  decide (v < o.vmin) || decide (o.vmax < v)

/-- Number of non-source nodes among the first `nodes` snapshot rows
whose pressure lies strictly outside `[hmin, hmax]`. -/
def pressureViolations (net : NetState) (o : Options) : ℕ :=
  (((net.sources.take net.nodes).zip (net.pressure.take net.nodes)).filter
    (pViol o)).length

/-- Number of pipes among the first `links` snapshot rows whose velocity
lies strictly outside `[vmin, vmax]`. -/
def velocityViolations (net : NetState) (o : Options) : ℕ :=
  ((net.velocity.take net.links).filter (vViol o)).length

/-- The raw material cost `Σ_i unitPrice[diameter_i] * length_i` of the
spec's cost formula (lookup defaulting is irrelevant when every diameter
is a key). -/
def rawCost (diameters lengths : List ℚ) (unit_prices : List (ℚ × ℚ)) : ℚ :=
  ((diameters.zip lengths).map
    (fun dl => ((lookupD unit_prices dl.1).getD 0) * dl.2)).sum

/-! ## The multi-run driver (src/optinetd_deap.py lines 87–156)

`optimize_diameters_execs` loops `for i in range(execs)`, appending each
execution's statistics rows to the `stats` DataFrame, and only after the
loop calls `stats.to_csv(_stats)`.  There is no try/except/finally: an
exception raised by any execution propagates and `to_csv` never runs.
Each execution is abstracted to its outcome: either its statistics rows
(a list of rationals) or a raised exception. -/

/-- A single `optimize_diameters` execution's outcome as the driver sees
it: the statistics rows it contributes, or an exception. -/
abbrev ExecOutcome := Except PyErr (List ℚ)

/-- What `optimize_diameters_execs` leaves behind on the statistics file:
`flushed` is the content written by `to_csv` (`none` when the call was
never reached), `failed` reports whether the driver itself raised. -/
structure ExecsOutcome where
  flushed : Option (List ℚ)
  failed : Bool
  deriving DecidableEq, Repr

/-- The accumulation loop of `optimize_diameters_execs`: run the
executions in order, concatenating their statistics rows; the first
exception aborts the loop. -/
def runExecs : List ExecOutcome → List ℚ → Except PyErr (List ℚ)
  | [], acc => Except.ok acc
  | r :: rs, acc =>
    match r with
    | Except.error e => Except.error e
    | Except.ok rows => runExecs rs (acc ++ rows)

/-- `optimize_diameters_execs` as a function of the execution outcomes:
the statistics are flushed (`to_csv`) only on the all-successful path,
after the whole loop. -/
def optimize_diameters_execs (runs : List ExecOutcome) : ExecsOutcome :=
  match runExecs runs [] with
  | Except.error _ => { flushed := none, failed := true }
  | Except.ok acc => { flushed := some acc, failed := false }

/-! ## The registered selection operator (src/optinetd_deap.py line 69)

`toolbox.register("select", tools.selRoulette)` hands selection to DEAP's
`tools.selRoulette` with no wrapper: each of the `k` spins draws
`u = random.random() * sum_fits` with `sum_fits` the sum of the raw first
fitness values, scans the individuals accumulating their raw
`fitness.values[0]`, and picks the first individual whose running sum
exceeds `u`.  Hence one spin selects an individual with probability equal
to its raw fitness value divided by the population's raw fitness sum
(for positive fitness values).  The repository applies no inversion or
ranking before handing the raw values to the roulette. -/

/-- Probability that one roulette spin of the registered selection
operator picks the individual at position `i`, for a population with the
given positive raw fitness values (cost: lower is better). -/
def selRouletteProb (fits : List ℚ) (i : ℕ) : ℚ :=
  fits.getD i 0 / fits.sum

/-! ## Concrete test fixtures -/

/-- A two-entry price catalog: diameter 10 costs 1 per unit length,
diameter 20 costs 2. -/
def pricesTwo : List (ℚ × ℚ) := [(10, 1), (20, 2)]

/-- A post-simulation network state with one source node (type 1) whose
pressure is never checked, and one pipe of length 1 with in-range
velocity 1: no constraint is violated. -/
def netFeasible : NetState :=
  { nodes := 1, links := 1, nodeids := [0], sources := [1],
    pressure := [0], velocity := [1], lengths := [1],
    diameters := [20], flowrate := [1], solverDiam := [20] }

/-- A freshly initialized network state with one node and one link and
no snapshot rows yet. -/
def netFresh : NetState :=
  { nodes := 1, links := 1, nodeids := [], sources := [],
    pressure := [], velocity := [], lengths := [],
    diameters := [], flowrate := [], solverDiam := [0] }

/-- An initialized network state whose link count 300 exceeds CPython's
small-int cache bound 256. -/
def netLarge : NetState :=
  { nodes := 2, links := 300, nodeids := [], sources := [],
    pressure := [], velocity := [], lengths := [],
    diameters := [], flowrate := [], solverDiam := [] }

/-- A single-period engine whose oracles are constant: node id 7,
consumer node type 0, pressure 50, velocity 1, length 1, diameter 20,
flow 3. -/
def engineOnce : Engine :=
  { periods := 1, nodeId := fun _ => 7, nodeType := fun _ => 0,
    nodePressure := fun _ _ => 50, linkVelocity := fun _ _ => 1,
    linkLength := fun _ _ => 1, linkDiameter := fun _ _ => 20,
    linkFlow := fun _ _ => 3 }

/-! ## Helper lemmas on the catalog embedding -/

theorem sortedKeys_length (pp : List (ℚ × ℚ)) :
    (sortedKeys pp).length = pp.length := by
  unfold sortedKeys
  rw [(List.perm_insertionSort (· ≤ ·) (pp.map Prod.fst)).length_eq,
    List.length_map]

theorem sortedKeys_sorted (pp : List (ℚ × ℚ)) :
    List.Sorted (· ≤ ·) (sortedKeys pp) :=
  List.sorted_insertionSort (· ≤ ·) (pp.map Prod.fst)

theorem mem_of_mem_sortedKeys {pp : List (ℚ × ℚ)} {d : ℚ}
    (h : d ∈ sortedKeys pp) : d ∈ pp.map Prod.fst :=
  (List.perm_insertionSort (· ≤ ·) (pp.map Prod.fst)).subset h

theorem get?_isSome_iff (l : List ℚ) (n : ℕ) :
    (l.get? n).isSome ↔ n < l.length := by
  constructor
  · intro h
    obtain ⟨a, ha⟩ := Option.isSome_iff_exists.1 h
    exact (List.get?_eq_some.1 ha).1
  · intro h
    rw [List.get?_eq_get h]
    rfl

theorem pyGet_isSome {l : List ℚ} {i : ℤ} :
    (pyGet l i).isSome ↔ -(l.length : ℤ) ≤ i ∧ i < l.length := by
  unfold pyGet
  by_cases hneg : i < 0
  · simp only [hneg, if_true]
    have h0 : ¬ ((l.length : ℤ) ≤ i) := by omega
    by_cases hge : 0 ≤ i + l.length
    · simp only [hge, if_true, get?_isSome_iff]
      omega
    · simp only [hge, if_false, Option.isSome_none]
      constructor
      · intro h; exact absurd h (by simp)
      · intro ⟨h1, _⟩; omega
  · simp only [hneg, if_false]
    have h0 : (0 : ℤ) ≤ i := by omega
    simp only [h0, if_true, get?_isSome_iff]
    omega

theorem pyGet_mem {l : List ℚ} {i : ℤ} {d : ℚ} (h : pyGet l i = some d) :
    d ∈ l := by
  unfold pyGet at h
  by_cases h0 : (0 : ℤ) ≤ (if i < 0 then i + l.length else i)
  · simp only [h0, if_true] at h
    exact List.get?_mem h
  · simp only [h0, if_false] at h
    exact absurd h (by simp)

theorem pyGet_nat (l : List ℚ) (n : ℕ) (h : n < l.length) :
    pyGet l n = some (l.get ⟨n, h⟩) := by
  unfold pyGet
  have hneg : ¬ ((n : ℤ) < 0) := by omega
  have h0 : (0 : ℤ) ≤ (n : ℤ) := by omega
  simp only [hneg, if_false, h0, if_true, Int.toNat_ofNat]
  exact List.get?_eq_get h

theorem comprehend_isSome {f : ℤ → Option ℚ} :
    ∀ {xs : List ℤ}, (comprehend f xs).isSome ↔ ∀ x ∈ xs, (f x).isSome := by
  intro xs
  induction xs with
  | nil => simp [comprehend]
  | cons x xs ih =>
    unfold comprehend
    cases hfx : f x with
    | none => simp [hfx]
    | some y => simp [hfx, ih]

theorem comprehend_mem {f : ℤ → Option ℚ} :
    ∀ {xs : List ℤ} {ds : List ℚ}, comprehend f xs = some ds →
      ∀ d ∈ ds, ∃ x ∈ xs, f x = some d := by
  intro xs
  induction xs with
  | nil =>
    intro ds h d hd
    simp only [comprehend, Option.some.injEq] at h
    subst h
    exact absurd hd (by simp)
  | cons x xs ih =>
    intro ds h d hd
    unfold comprehend at h
    cases hfx : f x with
    | none => rw [hfx] at h; exact absurd h (by simp)
    | some y =>
      rw [hfx] at h
      cases hrest : comprehend f xs with
      | none => rw [hrest] at h; exact absurd h (by simp)
      | some ys =>
        rw [hrest] at h
        simp only [Option.map_some', Option.some.injEq] at h
        subst h
        rcases List.mem_cons.1 hd with hdy | hdys
        · exact ⟨x, List.mem_cons_self x xs, hdy ▸ hfx⟩
        · obtain ⟨x', hx', hfx'⟩ := ih hrest d hdys
          exact ⟨x', List.mem_cons_of_mem x hx', hfx'⟩

theorem lookupD_isSome_of_mem {pp : List (ℚ × ℚ)} {d : ℚ}
    (h : d ∈ pp.map Prod.fst) : (lookupD pp d).isSome := by
  induction pp with
  | nil => exact absurd h (by simp)
  | cons kv pp ih =>
    unfold lookupD
    by_cases hk : d = kv.1
    · simp [hk]
    · simp only [List.map_cons, List.mem_cons] at h
      rcases h with h | h
      · exact absurd h hk
      · simpa [hk] using ih h

theorem lookupD_mem_values {pp : List (ℚ × ℚ)} {d v : ℚ}
    (h : lookupD pp d = some v) : v ∈ pp.map Prod.snd := by
  induction pp with
  | nil => exact absurd h (by simp [lookupD])
  | cons kv pp ih =>
    unfold lookupD at h
    by_cases hk : d = kv.1
    · simp only [hk, if_true, Option.some.injEq] at h
      simp [← h]
    · simp only [hk, if_false] at h
      simp [ih h]

/-! ## Claim theorems on the catalog -/

/-- C5 (counterexample): the claim says `index2diam` fails with
`IndexOutOfRange` whenever some index lies outside `[0, |catalog|)`; but
on the one-entry catalog `[(25, 2)]` the index `-1` lies outside `[0, 1)`
and `index2diam` nevertheless succeeds, returning `[25]` — Python list
subscription accepts negative indices. -/
theorem index2diam_negative_index_cex :
    index2diam [-1] [((25 : ℚ), (2 : ℚ))] = some [25] ∧
      ¬ ((0 : ℤ) ≤ -1 ∧ (-1 : ℤ) < 1) := by
  exact ⟨rfl, by omega⟩

/-- C5 (amended): `index2diam` succeeds exactly when every index lies in
`[-|catalog|, |catalog|)` — negative indices resolve from the end of the
sorted key list, as Python list subscription does — and fails with
`IndexError` otherwise. -/
theorem index2diam_isSome_iff (idxs : List ℤ) (pp : List (ℚ × ℚ)) :
    (index2diam idxs pp).isSome ↔
      ∀ i ∈ idxs, -(pp.length : ℤ) ≤ i ∧ i < pp.length := by
  unfold index2diam
  rw [comprehend_isSome]
  constructor
  · intro h i hi
    have := h i hi
    rw [pyGet_isSome, sortedKeys_length] at this
    exact this
  · intro h i hi
    rw [pyGet_isSome, sortedKeys_length]
    exact h i hi

/-- C7: `index2diam` is monotonic — two in-range indices `i ≤ j` resolve
to diameters `a ≤ b`, because the catalog keys are sorted ascending.
(Purity and determinism hold by construction: the embedding is a function
of the catalog and the index list alone, exactly as the source computes
from its two arguments.) -/
theorem index2diam_monotone (pp : List (ℚ × ℚ)) (i j : ℕ) (hij : i ≤ j)
    (hj : j < pp.length) :
    ∃ a b, index2diam [(i : ℤ), (j : ℤ)] pp = some [a, b] ∧ a ≤ b := by
  have hlen : (sortedKeys pp).length = pp.length := sortedKeys_length pp
  have hj' : j < (sortedKeys pp).length := by omega
  have hi' : i < (sortedKeys pp).length := by omega
  refine ⟨(sortedKeys pp).get ⟨i, hi'⟩, (sortedKeys pp).get ⟨j, hj'⟩, ?_, ?_⟩
  · unfold index2diam
    simp [comprehend, pyGet_nat (sortedKeys pp) i hi',
      pyGet_nat (sortedKeys pp) j hj']
  · exact List.Sorted.rel_get_of_le (sortedKeys_sorted pp)
      (by exact_mod_cast hij)

/-- C10: for index lists whose entries all lie in `[0, |catalog|)`,
`index2diam` succeeds and every returned diameter is a key of the price
table, so the `unit_prices[diameters[i]]` lookup inside `network_cost`
cannot raise `KeyError` on a diameter list produced this way. -/
theorem index2diam_returns_keys (idxs : List ℤ) (pp : List (ℚ × ℚ))
    (hin : ∀ i ∈ idxs, 0 ≤ i ∧ i < (pp.length : ℤ)) :
    ∃ ds, index2diam idxs pp = some ds ∧
      ∀ d ∈ ds, (lookupD pp d).isSome := by
  have hsome : (index2diam idxs pp).isSome := by
    rw [index2diam_isSome_iff]
    intro i hi
    have := hin i hi
    omega
  obtain ⟨ds, hds⟩ := Option.isSome_iff_exists.1 hsome
  refine ⟨ds, hds, fun d hd => ?_⟩
  obtain ⟨x, _, hx⟩ := comprehend_mem hds d hd
  exact lookupD_isSome_of_mem (mem_of_mem_sortedKeys (pyGet_mem hx))

/-! ## Helper lemmas on the objective function -/

theorem penH_eq (o : Options) (n : ℕ) :
    ∀ (ss : List ℤ) (ps : List ℚ), n ≤ ss.length → n ≤ ps.length →
      penH n ss ps o = some (o.penalty_step *
        ((((ss.take n).zip (ps.take n)).filter (pViol o)).length : ℚ)) := by
  induction n with
  | zero => intro ss ps _ _; simp [penH]
  | succ n ih =>
    intro ss ps hs hp
    cases ss with
    | nil => simp at hs
    | cons s ss =>
      cases ps with
      | nil => simp at hp
      | cons p ps =>
        have hs' : n ≤ ss.length := by simpa using hs
        have hp' : n ≤ ps.length := by simpa using hp
        by_cases h0 : s = 0
        · have hstep : penH (n + 1) (s :: ss) (p :: ps) o =
              (penH n ss ps o).map
                (fun acc => if p < o.hmin ∨ o.hmax < p then
                  acc + o.penalty_step else acc) := by
            simp [penH, h0]
          rw [hstep, ih ss ps hs' hp']
          by_cases hv : p < o.hmin ∨ o.hmax < p
          · have hb : pViol o (s, p) = true := by
              simp only [pViol, h0, decide_True, Bool.true_and]
              rcases hv with hv | hv <;> simp [hv]
            simp only [Option.map_some', if_pos hv, List.take_succ_cons,
              List.zip_cons_cons, List.filter_cons, hb, if_true,
              List.length_cons, Option.some.injEq]
            push_cast
            ring
          · have hb : pViol o (s, p) = false := by
              simp only [pViol, h0, decide_True, Bool.true_and]
              push_neg at hv
              simp [not_lt.2 hv.1, not_lt.2 hv.2]
            simp only [Option.map_some', if_neg hv, List.take_succ_cons,
              List.zip_cons_cons, List.filter_cons, hb]
            simp
        · have hstep : penH (n + 1) (s :: ss) (p :: ps) o =
              penH n ss ps o := by
            simp [penH, h0]
          rw [hstep, ih ss ps hs' hp']
          have hb : pViol o (s, p) = false := by
            simp [pViol, h0]
          simp only [List.take_succ_cons, List.zip_cons_cons,
            List.filter_cons, hb]
          simp

theorem penV_eq (o : Options) (n : ℕ) :
    ∀ (vs : List ℚ), n ≤ vs.length →
      penV n vs o = some (o.penalty_step *
        (((vs.take n).filter (vViol o)).length : ℚ)) := by
  induction n with
  | zero => intro vs _; simp [penV]
  | succ n ih =>
    intro vs hv
    cases vs with
    | nil => simp at hv
    | cons v vs =>
      have hv' : n ≤ vs.length := by simpa using hv
      have hstep : penV (n + 1) (v :: vs) o =
          (penV n vs o).map
            (fun acc => if v < o.vmin ∨ o.vmax < v then
              acc + o.penalty_step else acc) := by
        simp [penV]
      rw [hstep, ih vs hv']
      by_cases hvv : v < o.vmin ∨ o.vmax < v
      · have hb : vViol o v = true := by
          simp only [vViol]
          rcases hvv with h | h <;> simp [h]
        simp only [Option.map_some', if_pos hvv, List.take_succ_cons,
          List.filter_cons, hb, if_true, List.length_cons,
          Option.some.injEq]
        push_cast
        ring
      · have hb : vViol o v = false := by
          simp only [vViol]
          push_neg at hvv
          simp [not_lt.2 hvv.1, not_lt.2 hvv.2]
        simp only [Option.map_some', if_neg hvv, List.take_succ_cons,
          List.filter_cons, hb]
        simp

theorem costSum_eq (pp : List (ℚ × ℚ)) (pV pH : ℚ) :
    ∀ (ds ls : List ℚ), (∀ d ∈ ds, (lookupD pp d).isSome) →
      ds.length ≤ ls.length →
      costSum ds ls pp pV pH = some (rawCost ds ls pp * (pV * pH)) := by
  intro ds
  induction ds with
  | nil => intro ls _ _; simp [costSum, rawCost]
  | cons d ds ih =>
    intro ls hd hl
    cases ls with
    | nil => simp at hl
    | cons l ls =>
      have hl' : ds.length ≤ ls.length := by simpa using hl
      obtain ⟨up, hup⟩ := Option.isSome_iff_exists.1
        (hd d (List.mem_cons_self d ds))
      have hrest := ih ls (fun x hx => hd x (List.mem_cons_of_mem d hx)) hl'
      have hstep : costSum (d :: ds) (l :: ls) pp pV pH =
          (costSum ds ls pp pV pH).map
            (fun rest => up * l * pV * pH + rest) := by
        simp [costSum, hup]
      rw [hstep, hrest]
      simp only [Option.map_some', Option.some.injEq, rawCost,
        List.zip_cons_cons, List.map_cons, List.sum_cons, hup,
        Option.getD_some]
      ring

/-- Closed form of `network_cost` for snapshot lists that cover the node
and link counts and diameters that are all catalog keys: the raw material
cost times the velocity penalty times the pressure penalty. -/
theorem network_cost_closed (ds : List ℚ) (net : NetState)
    (pp : List (ℚ × ℚ)) (o : Options)
    (hs : net.nodes ≤ net.sources.length)
    (hp : net.nodes ≤ net.pressure.length)
    (hv : net.links ≤ net.velocity.length)
    (hl : ds.length ≤ net.lengths.length)
    (hd : ∀ d ∈ ds, (lookupD pp d).isSome) :
    network_cost ds net pp o =
      some (rawCost ds net.lengths pp *
        (1 + o.penalty_step * (velocityViolations net o : ℚ)) *
        (1 + o.penalty_step * (pressureViolations net o : ℚ))) := by
  unfold network_cost
  rw [penH_eq o net.nodes net.sources net.pressure hs hp,
    penV_eq o net.links net.velocity hv]
  dsimp only
  rw [costSum_eq pp _ _ ds net.lengths hd hl]
  unfold pressureViolations velocityViolations
  congr 1
  ring

/-- C1: for diameters that are all catalog keys and snapshot lists
covering the node and link counts, `network_cost` returns
`(Σ_i unitPrice[d_i] * length_i) * pV * pH` where, at the default
options (`hmin=30.0, hmax=100.0, vmin=0.25, vmax=2.50, penaltyStep=1`),
`pH = 1 + penaltyStep · #`{non-source nodes with pressure strictly
outside `[hmin, hmax]`} and `pV = 1 + penaltyStep · #`{pipes with
velocity strictly outside `[vmin, vmax]`}. -/
theorem network_cost_penalty_formula (ds : List ℚ) (net : NetState)
    (pp : List (ℚ × ℚ))
    (hs : net.nodes ≤ net.sources.length)
    (hp : net.nodes ≤ net.pressure.length)
    (hv : net.links ≤ net.velocity.length)
    (hl : ds.length ≤ net.lengths.length)
    (hd : ∀ d ∈ ds, (lookupD pp d).isSome) :
    network_cost ds net pp defaultOpts =
      some (rawCost ds net.lengths pp *
        (1 + (velocityViolations net defaultOpts : ℚ)) *
        (1 + (pressureViolations net defaultOpts : ℚ))) := by
  have h := network_cost_closed ds net pp defaultOpts hs hp hv hl hd
  simpa [defaultOpts] using h

/-- C1 witness: the formula evaluated on a concrete feasible one-node,
one-pipe state. -/
theorem network_cost_penalty_formula_witness :
    network_cost [(20 : ℚ)] netFeasible pricesTwo defaultOpts =
      some (rawCost [(20 : ℚ)] netFeasible.lengths pricesTwo *
        (1 + (velocityViolations netFeasible defaultOpts : ℚ)) *
        (1 + (pressureViolations netFeasible defaultOpts : ℚ))) :=
  network_cost_penalty_formula [(20 : ℚ)] netFeasible pricesTwo
    (by decide) (by decide) (by decide) (by decide)
    (by intro d hd; simp only [List.mem_singleton] at hd;
        norm_num [hd, lookupD, pricesTwo])

/-- C3 (counterexample): the claim makes the cost equal the minimum-price
bound `Σ minUnitPrice * length_i` exactly when no constraint is violated;
but on a feasible state (no pressure check on the single source node,
velocity 1 within `[0.25, 2.5]`) with the more expensive diameter 20
chosen, the cost is 2 while the bound is `1 * 1 = 1`: no violation, yet
no equality. -/
theorem network_cost_equality_cex :
    network_cost [(20 : ℚ)] netFeasible pricesTwo defaultOpts = some 2 ∧
    pressureViolations netFeasible defaultOpts = 0 ∧
    velocityViolations netFeasible defaultOpts = 0 ∧
    (pricesTwo.map Prod.snd).min? = some 1 ∧
    netFeasible.lengths.sum = 1 ∧
    ¬ ((2 : ℚ) = 1 * 1) := by
  refine ⟨?_, ?_, ?_, ?_, ?_, by norm_num⟩
  · norm_num [network_cost, penH, penV, costSum, lookupD, netFeasible,
      pricesTwo, defaultOpts]
  · norm_num [pressureViolations, pViol, netFeasible, defaultOpts]
  · norm_num [velocityViolations, vViol, netFeasible, defaultOpts]
  · simp [pricesTwo, List.min?]
  · simp [netFeasible]

/-- C3 (amended): for a diameter assignment drawn from the catalog, with
non-negative unit prices and pipe lengths, every cost `network_cost`
returns is at least `minUnitPrice * Σ length_i`; and when no pressure and
no velocity constraint is violated the cost equals the raw material cost
`Σ unitPrice[d_i] * length_i` (which exceeds the minimum-price bound
whenever a non-minimum-price diameter sits on a pipe of positive length,
so equality in the bound does not follow from feasibility). -/
theorem network_cost_lower_bound (ds : List ℚ) (net : NetState)
    (pp : List (ℚ × ℚ)) (m c : ℚ)
    (hs : net.nodes ≤ net.sources.length)
    (hp : net.nodes ≤ net.pressure.length)
    (hv : net.links ≤ net.velocity.length)
    (hlen : ds.length = net.lengths.length)
    (hd : ∀ d ∈ ds, d ∈ pp.map Prod.fst)
    (hm : (pp.map Prod.snd).min? = some m)
    (hnn : ∀ v ∈ pp.map Prod.snd, 0 ≤ v)
    (hln : ∀ l ∈ net.lengths, 0 ≤ l)
    (hc : network_cost ds net pp defaultOpts = some c) :
    m * net.lengths.sum ≤ c ∧
      (pressureViolations net defaultOpts = 0 ∧
        velocityViolations net defaultOpts = 0 →
          c = rawCost ds net.lengths pp) := by
  have hd' : ∀ d ∈ ds, (lookupD pp d).isSome :=
    fun d h => lookupD_isSome_of_mem (hd d h)
  rw [network_cost_closed ds net pp defaultOpts hs hp hv (le_of_eq hlen) hd']
    at hc
  have hpen : defaultOpts.penalty_step = 1 := rfl
  rw [hpen] at hc
  simp only [one_mul] at hc
  have hceq := (Option.some.inj hc).symm
  have hmmem : m ∈ pp.map Prod.snd :=
    List.min?_mem (fun a b => min_choice a b) hm
  have hmle : ∀ v ∈ pp.map Prod.snd, m ≤ v :=
    fun v hv' => (List.le_min?_iff (fun a b c => le_min_iff) hm).1
      (le_refl m) v hv'
  -- each raw-cost term dominates the minimum-price term
  have hterm : ∀ dl ∈ ds.zip net.lengths,
      m * dl.2 ≤ (lookupD pp dl.1).getD 0 * dl.2 := by
    intro dl hdl
    obtain ⟨hd1, hd2⟩ := List.of_mem_zip hdl
    obtain ⟨v, hvv⟩ := Option.isSome_iff_exists.1 (hd' dl.1 hd1)
    rw [hvv, Option.getD_some]
    exact mul_le_mul_of_nonneg_right (hmle v (lookupD_mem_values hvv))
      (hln dl.2 hd2)
  have hterm0 : ∀ dl ∈ ds.zip net.lengths,
      (0 : ℚ) ≤ (lookupD pp dl.1).getD 0 * dl.2 := by
    intro dl hdl
    obtain ⟨hd1, hd2⟩ := List.of_mem_zip hdl
    obtain ⟨v, hvv⟩ := Option.isSome_iff_exists.1 (hd' dl.1 hd1)
    rw [hvv, Option.getD_some]
    exact mul_nonneg (hnn v (lookupD_mem_values hvv)) (hln dl.2 hd2)
  have hraw0 : 0 ≤ rawCost ds net.lengths pp := by
    unfold rawCost
    exact List.sum_nonneg (by
      intro x hx
      obtain ⟨dl, hdl, rfl⟩ := List.mem_map.1 hx
      exact hterm0 dl hdl)
  have hbound : m * net.lengths.sum ≤ rawCost ds net.lengths pp := by
    have hsnd : (ds.zip net.lengths).map Prod.snd = net.lengths :=
      List.map_snd_zip ds net.lengths (le_of_eq hlen.symm)
    have h1 : m * net.lengths.sum =
        ((ds.zip net.lengths).map (fun dl => m * dl.2)).sum := by
      rw [List.sum_map_mul_left, hsnd]
    rw [h1]
    exact List.sum_le_sum hterm
  have hA : (1 : ℚ) ≤ 1 + (velocityViolations net defaultOpts : ℚ) := by
    have : (0 : ℚ) ≤ (velocityViolations net defaultOpts : ℚ) := by
      positivity
    linarith
  have hB : (1 : ℚ) ≤ 1 + (pressureViolations net defaultOpts : ℚ) := by
    have : (0 : ℚ) ≤ (pressureViolations net defaultOpts : ℚ) := by
      positivity
    linarith
  constructor
  · have s1 : rawCost ds net.lengths pp ≤
        rawCost ds net.lengths pp *
          (1 + (velocityViolations net defaultOpts : ℚ)) :=
      le_mul_of_one_le_right hraw0 hA
    have s2 : rawCost ds net.lengths pp *
          (1 + (velocityViolations net defaultOpts : ℚ)) ≤
        rawCost ds net.lengths pp *
          (1 + (velocityViolations net defaultOpts : ℚ)) *
          (1 + (pressureViolations net defaultOpts : ℚ)) :=
      le_mul_of_one_le_right
        (mul_nonneg hraw0 (le_trans zero_le_one hA)) hB
    rw [hceq]
    calc m * net.lengths.sum ≤ rawCost ds net.lengths pp := hbound
      _ ≤ _ := le_trans s1 s2
  · intro ⟨h1, h2⟩
    rw [hceq, h1, h2]
    norm_num

/-- C3 witness: the amended bound evaluated on the concrete feasible
state — the cost 2 meets the bound `1 * 1 ≤ 2`, and feasibility gives
`2 = rawCost`. -/
theorem network_cost_lower_bound_witness :
    (1 : ℚ) * netFeasible.lengths.sum ≤ 2 ∧
      (pressureViolations netFeasible defaultOpts = 0 ∧
        velocityViolations netFeasible defaultOpts = 0 →
          (2 : ℚ) = rawCost [(20 : ℚ)] netFeasible.lengths pricesTwo) :=
  network_cost_lower_bound [(20 : ℚ)] netFeasible pricesTwo 1 2
    (by decide) (by decide) (by decide) (by decide)
    (by intro d hd; simp only [List.mem_singleton] at hd;
        norm_num [hd, pricesTwo])
    (by simp [pricesTwo, List.min?])
    (by intro v hv; fin_cases hv <;> norm_num [pricesTwo])
    (by intro l hl; fin_cases hl; norm_num [netFeasible])
    (by norm_num [network_cost, penH, penV, costSum, lookupD, netFeasible,
      pricesTwo, defaultOpts])

/-! ## Claim theorems on the `Network` methods -/

/-- C2: `simulate` resets `pressure`, `velocity`, `lengths`, `diameters`
and `sources` but not `nodeids` and not `flowrate`.  After two successive
single-period calls on a one-node, one-link network, the reset lists hold
exactly the one row of the second call, while `nodeids` and `flowrate`
still hold the first call's rows as well — the snapshot state is not
fully fresh per call, contradicting the stated invariant. -/
theorem simulate_stale_rows :
    (simulate (simulate netFresh engineOnce) engineOnce).pressure.length = 1 ∧
    (simulate (simulate netFresh engineOnce) engineOnce).velocity.length = 1 ∧
    (simulate (simulate netFresh engineOnce) engineOnce).lengths.length = 1 ∧
    (simulate (simulate netFresh engineOnce) engineOnce).diameters.length = 1 ∧
    (simulate (simulate netFresh engineOnce) engineOnce).sources.length = 1 ∧
    (simulate (simulate netFresh engineOnce) engineOnce).nodeids.length = 2 ∧
    (simulate (simulate netFresh engineOnce) engineOnce).flowrate.length = 2 :=
  ⟨rfl, rfl, rfl, rfl, rfl, rfl, rfl⟩

set_option maxRecDepth 8000 in
/-- C4 (counterexample): the length check is `len(diameters) is
self.links`, CPython object identity, not `==`.  For a 300-link network
and a matching list of 300 diameters, both runtime ints lie outside the
interned cache `[-5, 256]`, the identity test is false, and the assert
fails even though the lengths are equal — refuting the claim that every
matching-length list is written through. -/
theorem change_diameters_is_check_cex :
    change_diameters (List.replicate 300 (25 : ℚ)) netLarge =
      Except.error PyErr.assertionError ∧
    (List.replicate 300 (25 : ℚ)).length = netLarge.links := by
  constructor
  · rfl
  · rw [List.length_replicate]
    rfl

/-- C4 (amended): a diameter list whose length differs from the link
count always fails the assert before any solver write; a matching-length
list is written through — one diameter per link, in order — provided the
link count is at most 256 (CPython's small-int cache, where `is`
coincides with `==`); for larger link counts the identity-based check
spuriously fails even on matching lengths. -/
theorem change_diameters_spec (ds : List ℚ) (net : NetState) :
    (ds.length ≠ net.links →
      change_diameters ds net = Except.error PyErr.assertionError) ∧
    (ds.length = net.links → net.links ≤ 256 →
      change_diameters ds net = Except.ok { net with solverDiam := ds }) ∧
    (ds.length = net.links → 256 < net.links →
      change_diameters ds net = Except.error PyErr.assertionError) := by
  refine ⟨fun hne => ?_, fun heq hle => ?_, fun heq hgt => ?_⟩
  · have : intIs ds.length net.links = false := by
      simp only [intIs, Bool.and_eq_false_iff, decide_eq_false_iff_not]
      left; left
      exact_mod_cast hne
    simp [change_diameters, this]
  · have hi : intIs ds.length net.links = true := by
      simp only [intIs, Bool.and_eq_true, decide_eq_true_iff]
      refine ⟨⟨by exact_mod_cast heq, by omega⟩, ?_⟩
      omega
    have hw : (List.range net.links).map (fun i => ds.getD i 0) = ds := by
      rw [← heq]
      apply List.ext_get (by simp)
      intro n h1 h2
      simp only [List.get_eq_getElem, List.getElem_map, List.getElem_range]
      rw [List.getD_eq_getElem?_getD, List.getElem?_eq_getElem h2]
      rfl
    have h1 : change_diameters ds net = Except.ok { net with
        solverDiam := (List.range net.links).map (fun i => ds.getD i 0) } := by
      unfold change_diameters
      rw [hi]
      rfl
    rw [h1, hw]
  · have hi : intIs ds.length net.links = false := by
      simp only [intIs, Bool.and_eq_false_iff, decide_eq_false_iff_not]
      right
      omega
    simp [change_diameters, hi]

/-- C4 witness: the amended behaviour at concrete inputs — a matching
one-element list on a one-link network is written into the solver state,
and an empty list on the same network fails the assert. -/
theorem change_diameters_spec_witness :
    change_diameters [(25 : ℚ)] netFresh =
      Except.ok { netFresh with solverDiam := [25] } ∧
    change_diameters [] netFresh = Except.error PyErr.assertionError :=
  ⟨(change_diameters_spec [(25 : ℚ)] netFresh).2.1 (by decide) (by decide),
   (change_diameters_spec [] netFresh).1 (by decide)⟩

/-- C6 (counterexample): with the topology file absent, `open_network`
raises nothing — it prints a message and returns `True` — so the claimed
`ConfigurationError` failure does not occur. -/
theorem open_network_no_error_cex :
    open_network false =
      { solverOpened := false, raised := false, ret := true } :=
  rfl

/-- C6 (amended): `open_network` never raises; when the topology file is
absent it prints a message and still returns `True` without opening a
solver session, and it calls `ENopen`/`ENopenH` exactly when the file
exists. -/
theorem open_network_spec (fe : Bool) :
    (open_network fe).raised = false ∧
    (open_network fe).ret = true ∧
    (open_network fe).solverOpened = fe := by
  cases fe <;> exact ⟨rfl, rfl, rfl⟩

/-! ## Claim theorems on the GA driver -/

/-- C8: the driver flushes the statistics (`to_csv`) only after the whole
execution loop.  With two executions of which the first completes (row 5)
and the second raises, nothing at all is flushed — the first execution's
rows are discarded, contradicting the required flush-on-failure; when
both complete, everything is flushed at once. -/
theorem execs_driver_discards_on_failure :
    optimize_diameters_execs [Except.ok [5], Except.error PyErr.solverError]
      = { flushed := none, failed := true } ∧
    optimize_diameters_execs [Except.ok [5], Except.ok [7]]
      = { flushed := some [5, 7], failed := false } :=
  ⟨rfl, rfl⟩

/-- C9: the registered `tools.selRoulette` spins on raw fitness values.
For a two-individual population with costs 1 and 3 the lower-cost
individual is selected with probability 1/4 and the higher-cost one with
probability 3/4 — selection favours the worse individual, contradicting
the claim (and the program's minimization intent declared by
`weights=(-1.0,)`). -/
theorem selRoulette_favors_higher_cost :
    selRouletteProb [1, 3] 0 = 1 / 4 ∧
    selRouletteProb [1, 3] 1 = 3 / 4 ∧
    selRouletteProb [1, 3] 0 < selRouletteProb [1, 3] 1 := by
  refine ⟨?_, ?_, ?_⟩ <;> norm_num [selRouletteProb]

/-! ## Witnesses instantiating the universally quantified theorems -/

/-- C5 witness: the amended success condition evaluated on the concrete
two-entry catalog. -/
theorem index2diam_isSome_iff_witness :
    (index2diam [0, -2] pricesTwo).isSome ↔
      ∀ i ∈ [(0 : ℤ), -2], -(pricesTwo.length : ℤ) ≤ i ∧ i < pricesTwo.length :=
  index2diam_isSome_iff [0, -2] pricesTwo

/-- C7 witness: indices 0 ≤ 1 on the two-entry catalog resolve to
ascending diameters. -/
theorem index2diam_monotone_witness :
    ∃ a b, index2diam [((0 : ℕ) : ℤ), ((1 : ℕ) : ℤ)] pricesTwo =
      some [a, b] ∧ a ≤ b :=
  index2diam_monotone pricesTwo 0 1 (by decide) (by decide)

/-- C10 witness: in-range indices on the two-entry catalog produce
diameters whose price lookups all succeed. -/
theorem index2diam_returns_keys_witness :
    ∃ ds, index2diam [1, 0] pricesTwo = some ds ∧
      ∀ d ∈ ds, (lookupD pricesTwo d).isSome :=
  index2diam_returns_keys [1, 0] pricesTwo
    (by intro i hi; fin_cases hi <;> norm_num [pricesTwo])

/-- C6 witness: the amended `open_network` behaviour at the existing-file
input. -/
theorem open_network_spec_witness :
    (open_network true).raised = false ∧
    (open_network true).ret = true ∧
    (open_network true).solverOpened = true :=
  open_network_spec true

end Optinet
